import Mathlib

/-!
Verification development for the OpenSoT aggregation engine.

Embedded source files:
* `src/constraints/Aggregated.cpp` — `OpenSoT::constraints::Aggregated`
  (box-bound merging, equality folding, unilateral/bilateral inequality
  normalisation, `generateAll`, `checkSizes`);
* `src/tasks/Aggregated.cpp` — `OpenSoT::tasks::Aggregated`
  (weighted objective stacking, constraint-list union, `generateAll`,
  `checkSizes`, `_update`);
* `OpenSoT::OptvarHelper` (variable-layout helper, constructor and
  `getVar`).

Modelling conventions: IEEE doubles are modelled as exact rationals
extended with the two IEEE infinities (the constraint code manufactures
`+infinity` and `-DBL_MAX` sentinels, so the scalar type carries them);
an Eigen matrix is a list of rows (each row a list over the `x_size`
columns), an Eigen vector is a list; a block that a constraint does not
expose is the empty list, matching `resize(0, x_size)` /`size() == 0`
tests in the source.
-/

namespace OpenSoT

/-- Scalar modelling an IEEE double as used on the aggregation code
paths: either a finite value (kept exact as a rational) or one of the two
infinities. NaN never arises on the modelled paths. -/
inductive Scalar where
  | fin : ℚ → Scalar
  | posInf : Scalar
  | negInf : Scalar
deriving DecidableEq

/-- Negation of a scalar; the C++ writes it as multiplication by `-1.0`,
which on doubles is exact sign flipping. -/
def Sneg : Scalar → Scalar
  | .fin q => .fin (-q)
  | .posInf => .negInf
  | .negInf => .posInf

/-- The `<=` order on modelled doubles: `negInf` below every finite value,
`posInf` above, finite values by the rational order. -/
def Sle : Scalar → Scalar → Bool
  | .negInf, _ => true
  | .fin _, .posInf => true
  | .posInf, .posInf => true
  | .posInf, _ => false
  | .fin a, .fin b => decide (a ≤ b)
  | .fin _, .negInf => false

/-- `std::min` on modelled doubles. -/
def Smin : Scalar → Scalar → Scalar
  | .negInf, _ => .negInf
  | _, .negInf => .negInf
  | .posInf, b => b
  | a, .posInf => a
  | .fin a, .fin b => .fin (if a ≤ b then a else b)

/-- `std::max` on modelled doubles. -/
def Smax : Scalar → Scalar → Scalar
  | .posInf, _ => .posInf
  | _, .posInf => .posInf
  | .negInf, b => b
  | a, .negInf => a
  | .fin a, .fin b => .fin (if a ≤ b then b else a)

/-- Largest finite double, `std::numeric_limits<double>::max()`,
which is `(2^53 - 1) * 2^971` exactly. -/
def dblMax : ℚ := (2 ^ 53 - 1) * 2 ^ 971

/-- Modelled from the spec: the LinearSystemPiling utility `pile`
(and `yarp::math::pile`/`cat`), whose definition is not among the given
sources, vertically stacks two matrices (resp. concatenates two vectors);
on row lists and on vectors it is list concatenation. -/
def pile {α : Type} (a b : List α) : List α := a ++ b

/-- Elementwise negation of a vector (`-1.0 * v`). -/
def negV (v : List Scalar) : List Scalar := v.map Sneg

/-- Elementwise negation of a matrix (`-1.0 * M`). -/
def negM (m : List (List Scalar)) : List (List Scalar) := m.map negV

namespace Constraints

/-- The data one child `Constraint` exposes through its accessors
(`getUpperBound`, `getLowerBound`, `getAeq`, `getbeq`, `getAineq`,
`getbUpperBound`, `getbLowerBound`); the same record also holds the
aggregate's merged fields `_upperBound` … `_bLowerBound`. -/
structure ConstraintData where
  upperBound : List Scalar
  lowerBound : List Scalar
  Aeq : List (List Scalar)
  beq : List Scalar
  Aineq : List (List Scalar)
  bUpperBound : List Scalar
  bLowerBound : List Scalar
deriving DecidableEq

/-- The `AggregationPolicy` bitmask, given by its two independent flags,
tested in the source as `_aggregationPolicy & EQUALITIES_TO_INEQUALITIES`
and `_aggregationPolicy & UNILATERAL_TO_BILATERAL`. -/
structure AggregationPolicy where
  equalitiesToInequalities : Bool
  unilateralToBilateral : Bool
deriving DecidableEq

/-- Lines 80–88 of `constraints/Aggregated.cpp`: `generateAll` first
resets every merged field to empty (`resize(0)` / `resize(0, x_size)`). -/
def resetState (prev : ConstraintData) : ConstraintData :=
  { prev with
    upperBound := [], lowerBound := [],
    Aeq := [], beq := [],
    Aineq := [], bUpperBound := [], bLowerBound := [] }

/-- Lines 106–127: merging one child's box bounds into the running state
`s`. The first child with bounds is adopted verbatim, later children are
merged with elementwise `std::min`/`std::max`. -/
def genStepBox (s b : ConstraintData) : ConstraintData :=
  if b.upperBound.length ≠ 0 ∨ b.lowerBound.length ≠ 0 then
    if s.upperBound.length = 0 ∨ s.lowerBound.length = 0 then
      { s with upperBound := b.upperBound, lowerBound := b.lowerBound }
    else
      { s with
        upperBound := List.zipWith Smin s.upperBound b.upperBound,
        lowerBound := List.zipWith Smax s.lowerBound b.lowerBound }
  else s

/-- Lines 129–155: merging one child's equality block, honouring
`EQUALITIES_TO_INEQUALITIES` (and, inside it, `UNILATERAL_TO_BILATERAL`
for the representation of the lower side). -/
def genStepEq (p : AggregationPolicy) (s b : ConstraintData) : ConstraintData :=
  if b.Aeq.length ≠ 0 ∨ b.beq.length ≠ 0 then
    if p.equalitiesToInequalities then
      if p.unilateralToBilateral then
        { s with
          Aineq := pile s.Aineq b.Aeq,
          bUpperBound := pile s.bUpperBound b.beq,
          bLowerBound := pile s.bLowerBound b.beq }
      else
        { s with
          Aineq := pile (pile s.Aineq b.Aeq) (negM b.Aeq),
          bUpperBound := pile (pile s.bUpperBound b.beq) (negV b.beq) }
    else
      { s with Aeq := pile s.Aeq b.Aeq, beq := pile s.beq b.beq }
  else s

/-- Lines 157–205: merging one child's inequality block. In
`UNILATERAL_TO_BILATERAL` mode a missing upper side is filled with
`+infinity` and a missing lower side with `-DBL_MAX`; in pure-unilateral
mode the local variables `boundAineq`, `boundbUpperBound`,
`boundbLowerBound` are rewritten exactly as in the source (note that in
the missing-upper-bound branch the source negates `boundAineq` and
`boundbLowerBound` but leaves `boundbUpperBound` empty) and then
`boundAineq`/`boundbUpperBound` are piled; `boundbLowerBound` is piled
only in bilateral mode (line 203). -/
def genStepIneq (p : AggregationPolicy) (s b : ConstraintData) : ConstraintData :=
  if b.Aineq.length ≠ 0 ∨ b.bUpperBound.length ≠ 0 ∨ b.bLowerBound.length ≠ 0 then
    if p.unilateralToBilateral then
      let boundbUpperBound :=
        if b.bUpperBound.length = 0 then
          List.replicate b.Aineq.length Scalar.posInf
        else b.bUpperBound
      let boundbLowerBound :=
        if b.bUpperBound.length ≠ 0 ∧ b.bLowerBound.length = 0 then
          List.replicate b.Aineq.length (Scalar.fin (-dblMax))
        else b.bLowerBound
      { s with
        Aineq := pile s.Aineq b.Aineq,
        bUpperBound := pile s.bUpperBound boundbUpperBound,
        bLowerBound := pile s.bLowerBound boundbLowerBound }
    else
      let t :=
        if b.bUpperBound.length = 0 then
          (negM b.Aineq, b.bUpperBound, negV b.bLowerBound)
        else if b.bLowerBound.length = 0 then
          (b.Aineq, b.bUpperBound, b.bLowerBound)
        else
          (pile b.Aineq (negM b.Aineq), pile b.bUpperBound (negV b.bLowerBound),
           b.bLowerBound)
      { s with Aineq := pile s.Aineq t.1, bUpperBound := pile s.bUpperBound t.2.1 }
  else s

/-- One iteration of the child loop of `generateAll` (lines 91–205):
box bounds, then the equality block, then the inequality block. -/
def genStep (p : AggregationPolicy) (s b : ConstraintData) : ConstraintData :=
  genStepIneq p (genStepEq p (genStepBox s b) b) b

/-- `Aggregated::generateAll` (lines 78–206): reset the merged fields,
then fold the child loop over the list `_bounds`. The column count
`x_size` is implicit in the row lists. -/
def generateAll (p : AggregationPolicy) (bounds : List ConstraintData)
    (prev : ConstraintData) : ConstraintData :=
  bounds.foldl (genStep p) (resetState prev)

/-- The empty merged state a freshly built `Constraint` base holds. -/
def emptyData : ConstraintData := ⟨[], [], [], [], [], [], []⟩

/-- A child constraint as seen by the aggregate: the `x_size` it reports
through `getXSize()` plus the exposed data. -/
structure Child where
  xsize : Nat
  data : ConstraintData
deriving DecidableEq

/-- `Aggregated::checkSizes` (lines 223–230): every child must report the
aggregate's own `x_size`. -/
def checkSizes (xSize : Nat) (bounds : List Child) : Bool :=
  bounds.all (fun c => c.xsize == xSize)

/-- The `Aggregated(bounds, x_size, policy)` constructor (lines 39–48):
run `checkSizes` over the children, then produce the first merged state
via `generateAll`; a failed size check is a fatal error, modelled as
`none`, produced before any merge output. -/
def mkAggregated (bounds : List Child) (xSize : Nat)
    (p : AggregationPolicy) : Option ConstraintData :=
  if checkSizes xSize bounds then
    some (generateAll p (bounds.map Child.data) emptyData)
  else none

/-- Concrete child for the C1 witness: box `[-1,1] × [-1,1]`. -/
def boxChildA : ConstraintData :=
  { upperBound := [Scalar.fin 1, Scalar.fin 1],
    lowerBound := [Scalar.fin (-1), Scalar.fin (-1)],
    Aeq := [], beq := [], Aineq := [], bUpperBound := [], bLowerBound := [] }

/-- Concrete child for the C1 witness: box `[0,3] × [-2,0]`. -/
def boxChildB : ConstraintData :=
  { upperBound := [Scalar.fin 3, Scalar.fin 0],
    lowerBound := [Scalar.fin 0, Scalar.fin (-2)],
    Aeq := [], beq := [], Aineq := [], bUpperBound := [], bLowerBound := [] }

/-- Concrete child exposing only a lower-bounded inequality block
`3 ≤ 2 x` over `x_size = 1`, the C2 failing input. -/
def lowerOnlyChild : ConstraintData :=
  { upperBound := [], lowerBound := [], Aeq := [], beq := [],
    Aineq := [[Scalar.fin 2]], bUpperBound := [], bLowerBound := [Scalar.fin 3] }

/-- Concrete child exposing only a lower-bounded inequality block
`5 ≤ 4 x` over `x_size = 1`, the C3 failing input. -/
def lowerOnlyChildB : ConstraintData :=
  { upperBound := [], lowerBound := [], Aeq := [], beq := [],
    Aineq := [[Scalar.fin 4]], bUpperBound := [], bLowerBound := [Scalar.fin 5] }

/-- Concrete child exposing only the equality block `x + 2 y = 7`,
for the C5 witness. -/
def eqChildA : ConstraintData :=
  { upperBound := [], lowerBound := [],
    Aeq := [[Scalar.fin 1, Scalar.fin 2]], beq := [Scalar.fin 7],
    Aineq := [], bUpperBound := [], bLowerBound := [] }

/-- Concrete child exposing only the equality block `3 x - y = 4`,
for the C6 witness. -/
def eqChildB : ConstraintData :=
  { upperBound := [], lowerBound := [],
    Aeq := [[Scalar.fin 3, Scalar.fin (-1)]], beq := [Scalar.fin 4],
    Aineq := [], bUpperBound := [], bLowerBound := [] }

end Constraints

namespace Tasks

/-- Dot product of two rational vectors. -/
def dot (u v : List ℚ) : ℚ := (List.zipWith (· * ·) u v).sum

/-- Column `j` of a row-list matrix. -/
def col (m : List (List ℚ)) (j : Nat) : List ℚ := m.map (fun r => r.getD j 0)

/-- Matrix product of two row-list matrices (used for `W * A`). Task-side
values never involve the IEEE infinities, so plain rationals model the
doubles exactly for the claims at hand. -/
def matMul (m n : List (List ℚ)) : List (List ℚ) :=
  m.map (fun r => (List.range (n.headD []).length).map (fun j => dot r (col n j)))

/-- Matrix–vector product (used for `(W * lambda) * b`). -/
def matVec (m : List (List ℚ)) (v : List ℚ) : List ℚ := m.map (fun r => dot r v)

/-- Scalar multiple of a matrix (used for `W * lambda`). -/
def smulM (c : ℚ) (m : List (List ℚ)) : List (List ℚ) := m.map (List.map (c * ·))

/-- Identity matrix of size `n` (`_W.eye()` after `resize`). -/
def eye (n : Nat) : List (List ℚ) :=
  (List.range n).map (fun i => (List.range n).map (fun j => if i = j then (1 : ℚ) else 0))

/-- The qpOASES-style Hessian-type tag carried by a Task. -/
inductive HessianType where
  | HST_ZERO
  | HST_IDENTITY
  | HST_POSDEF
  | HST_SEMIDEF
  | HST_UNKNOWN
deriving DecidableEq

/-- The data one child Task exposes (`getA`, `getb`, `getWeight`,
`getLambda`, `getConstraints`, `getXSize`). `γ` is the type of constraint
handles (the shared pointers stored in the constraint list). -/
structure TaskData (γ : Type) where
  A : List (List ℚ)
  b : List ℚ
  W : List (List ℚ)
  lambda : ℚ
  constraints : List γ
  xsize : Nat

/-- The mutable state of an `OpenSoT::tasks::Aggregated`: the merged
`_A`, `_b`, the weight `_W`, the `_lambda` gain, `_hessianType` and the
merged constraint list. -/
structure AggTaskState (γ : Type) where
  A : List (List ℚ)
  b : List ℚ
  W : List (List ℚ)
  lambda : ℚ
  hessianType : HessianType
  constraints : List γ

/-- The body of the child loop of `tasks::Aggregated::generateAll`
(lines 92–101): pile `W * A` onto `_A`, concatenate `W * lambda * b`
onto `_b`, and push back every constraint of the child. -/
def generateStep {γ : Type} (acc : AggTaskState γ) (t : TaskData γ) : AggTaskState γ :=
  { acc with
    A := pile acc.A (matMul t.W t.A),
    b := pile acc.b (matVec (smulM t.lambda t.W) t.b),
    constraints := acc.constraints ++ t.constraints }

/-- `tasks::Aggregated::generateAll` (lines 88–102): clear the merged
constraint list, `_A` and `_b`, then fold the child loop over `_tasks`. -/
def generateAll {γ : Type} (tasks : List (TaskData γ)) (s : AggTaskState γ) :
    AggTaskState γ :=
  tasks.foldl generateStep { s with A := [], b := [], constraints := [] }

/-- `tasks::Aggregated::_update` (lines 69–76): forward `update(x)` to
every child — modelled by an arbitrary per-child transformation `upd`,
since the children's own update logic is external — then `generateAll`.
Returns the updated children together with the new aggregate state. -/
def update {γ : Type} (upd : TaskData γ → TaskData γ)
    (tasks : List (TaskData γ)) (s : AggTaskState γ) :
    List (TaskData γ) × AggTaskState γ :=
  let tasks2 := tasks.map upd
  (tasks2, generateAll tasks2 s)

/-- `tasks::Aggregated::checkSizes` (lines 79–85). -/
def checkSizes {γ : Type} (xSize : Nat) (tasks : List (TaskData γ)) : Bool :=
  tasks.all (fun t => t.xsize == xSize)

/-- The `Aggregated(tasks, x_size)` constructor (lines 25–35): check the
children's sizes (fatal on mismatch, modelled as `none`), generate the
merged state, then set `_W` to the identity sized to the merged row count
and `_hessianType` to `HST_SEMIDEF`. `base` is the state left by the
`Task` base-class constructor (whose code is not among the sources). -/
def mkAggregated {γ : Type} (base : AggTaskState γ)
    (tasks : List (TaskData γ)) (xSize : Nat) : Option (AggTaskState γ) :=
  if checkSizes xSize tasks then
    let s := generateAll tasks base
    some { s with W := eye s.A.length, hessianType := HessianType.HST_SEMIDEF }
  else none

end Tasks

structure VarInfo where
  size : Nat
  start_idx : Nat
deriving DecidableEq

/-- The state built by the `OptvarHelper` constructor: total size `_size`,
the `_vars` list and the name → `VarInfo` map `_vars_map` (modelled as an
association list; the constructor never inserts a duplicate key, so
lookups agree with `std::map`). -/
structure OptvarHelper where
  size : Nat
  vars : List VarInfo
  vars_map : List (String × VarInfo)
deriving DecidableEq

/-- The loop body of the `OptvarHelper` constructor (part_000 lines
13–29), written as explicit recursion over the `(name, size)` pairs:
a name already present in `_vars_map` raises
`std::invalid_argument("Duplicate variable names are not allowed")`;
otherwise the variable is recorded at offset `_size` and `_size` grows. -/
def mkOptvarHelperAux (h : OptvarHelper) :
    List (String × Nat) → Except String OptvarHelper
  | [] => Except.ok h
  | pair :: rest =>
    if (h.vars_map.lookup pair.1).isSome then
      Except.error "Duplicate variable names are not allowed"
    else
      mkOptvarHelperAux
        { size := h.size + pair.2,
          vars := h.vars ++ [⟨pair.2, h.size⟩],
          vars_map := h.vars_map ++ [(pair.1, ⟨pair.2, h.size⟩)] } rest

/-- `OptvarHelper::OptvarHelper` (part_000 lines 9–30). -/
def mkOptvarHelper (name_size_pairs : List (String × Nat)) :
    Except String OptvarHelper :=
  mkOptvarHelperAux ⟨0, [], []⟩ name_size_pairs

/-- The matrix `M` built by `getVar`: `size × total` zero matrix with the
identity block written at column offset `start` (part_000 lines 45–48). -/
def selectionMatrix (start rows total : Nat) : List (List ℚ) :=
  (List.range rows).map
    (fun r => (List.range total).map (fun c => if c = start + r then (1 : ℚ) else 0))

/-- `OptvarHelper::getVar` (part_000 lines 32–52): unknown names raise
`std::invalid_argument("Variable does not exist")`; otherwise the pair
`(M, q)` of the affine view is returned, with `q` the zero vector. -/
def getVar (h : OptvarHelper) (name : String) :
    Except String (List (List ℚ) × List ℚ) :=
  match h.vars_map.lookup name with
  | none => Except.error "Variable does not exist"
  | some vinfo =>
    Except.ok (selectionMatrix vinfo.start_idx vinfo.size h.size,
               List.replicate vinfo.size (0 : ℚ))

/-- Total size of a prefix of `(name, size)` pairs. -/
def sumSizes (pairs : List (String × Nat)) : Nat := (pairs.map Prod.snd).sum

/-- The association-list entries that the `OptvarHelper` constructor adds
for a pair list processed starting at offset `off`: each name is bound to
its size and to the running offset. -/
def layoutEntries (off : Nat) : List (String × Nat) → List (String × VarInfo)
  | [] => []
  | (n, sz) :: rest => (n, ⟨sz, off⟩) :: layoutEntries (off + sz) rest

/-- Concrete task for the C4 example: `A1 = [[1,2],[3,4]]`,
`b1 = [5,6]`, `W1 = 2 I`, `lambda1 = 1`. -/
def taskT1 : Tasks.TaskData Nat :=
  { A := [[1, 2], [3, 4]], b := [5, 6], W := [[2, 0], [0, 2]],
    lambda := 1, constraints := [], xsize := 2 }

/-- Concrete task for the C4 example: `A2 = [[7,8]]`, `b2 = [9]`,
`W2 = I`, `lambda2 = 1/2`. -/
def taskT2 : Tasks.TaskData Nat :=
  { A := [[7, 8]], b := [9], W := [[1]],
    lambda := 1/2, constraints := [], xsize := 2 }

/-- A base aggregate-task state as left by the `Task` base constructor. -/
def taskBase : Tasks.AggTaskState Nat :=
  { A := [], b := [], W := [], lambda := 1,
    hessianType := Tasks.HessianType.HST_UNKNOWN, constraints := [] }

/-- Concrete task reporting `x_size = 7`, for the C8 witness. -/
def taskSize7 : Tasks.TaskData Nat :=
  { A := [], b := [], W := [], lambda := 1, constraints := [], xsize := 7 }

/-- The aggregate-task state produced by constructing from an empty task
list over `x_size = 0`, for the C10 witness. -/
def taskAggResult : Tasks.AggTaskState Nat :=
  { A := [], b := [], W := [], lambda := 1,
    hessianType := Tasks.HessianType.HST_SEMIDEF, constraints := [] }

/-- Concrete pair list for the C9 witness: `q` of size 2 then `r` of
size 3. -/
def layoutPairs : List (String × Nat) := [("q", 2), ("r", 3)]

/-- The helper state built from `layoutPairs`: total size 5, `q` at
offset 0, `r` at offset 2. -/
def layoutHelper : OptvarHelper :=
  { size := 5, vars := [⟨2, 0⟩, ⟨3, 2⟩],
    vars_map := [("q", ⟨2, 0⟩), ("r", ⟨3, 2⟩)] }

/-! ## Theorems -/

theorem Smin_eq_or (a b : Scalar) : Smin a b = a ∨ Smin a b = b := by
  cases a <;> cases b <;> try simp [Smin]
  rename_i x y
  by_cases h : x ≤ y <;> simp [Smin, h]

theorem Smax_eq_or (a b : Scalar) : Smax a b = a ∨ Smax a b = b := by
  cases a <;> cases b <;> try simp [Smax]
  rename_i x y
  by_cases h : x ≤ y <;> simp [Smax, h]

theorem Sle_min_left (a b : Scalar) : Sle (Smin a b) a = true := by
  cases a <;> cases b <;> try simp [Smin, Sle]
  rename_i x y
  by_cases h : x ≤ y <;> simp [h]
  exact le_of_not_le h

theorem Sle_min_right (a b : Scalar) : Sle (Smin a b) b = true := by
  cases a <;> cases b <;> try simp [Smin, Sle]
  rename_i x y
  by_cases h : x ≤ y <;> simp [h]

theorem Sle_max_left (a b : Scalar) : Sle a (Smax a b) = true := by
  cases a <;> cases b <;> try simp [Smax, Sle]
  rename_i x y
  by_cases h : x ≤ y <;> simp [h]

theorem Sle_max_right (a b : Scalar) : Sle b (Smax a b) = true := by
  cases a <;> cases b <;> try simp [Smax, Sle]
  rename_i x y
  by_cases h : x ≤ y <;> simp [h]
  exact le_of_not_le h

theorem Sle_refl (a : Scalar) : Sle a a = true := by
  cases a <;> simp [Sle]

theorem Sle_trans {a b c : Scalar} (h1 : Sle a b = true) (h2 : Sle b c = true) :
    Sle a c = true := by
  cases a <;> cases b <;> cases c <;> simp_all [Sle]
  exact le_trans h1 h2

namespace Constraints

theorem genStepBox_Aeq (s b : ConstraintData) : (genStepBox s b).Aeq = s.Aeq := by
  unfold genStepBox
  split
  · split <;> rfl
  · rfl

theorem genStepBox_beq (s b : ConstraintData) : (genStepBox s b).beq = s.beq := by
  unfold genStepBox
  split
  · split <;> rfl
  · rfl

theorem genStepBox_Aineq (s b : ConstraintData) : (genStepBox s b).Aineq = s.Aineq := by
  unfold genStepBox
  split
  · split <;> rfl
  · rfl

theorem genStepBox_bUpperBound (s b : ConstraintData) :
    (genStepBox s b).bUpperBound = s.bUpperBound := by
  unfold genStepBox
  split
  · split <;> rfl
  · rfl

theorem genStepBox_bLowerBound (s b : ConstraintData) :
    (genStepBox s b).bLowerBound = s.bLowerBound := by
  unfold genStepBox
  split
  · split <;> rfl
  · rfl

theorem genStepEq_upperBound (p : AggregationPolicy) (s b : ConstraintData) :
    (genStepEq p s b).upperBound = s.upperBound := by
  unfold genStepEq
  split
  · split
    · split <;> rfl
    · rfl
  · rfl

theorem genStepEq_lowerBound (p : AggregationPolicy) (s b : ConstraintData) :
    (genStepEq p s b).lowerBound = s.lowerBound := by
  unfold genStepEq
  split
  · split
    · split <;> rfl
    · rfl
  · rfl

theorem genStepIneq_upperBound (p : AggregationPolicy) (s b : ConstraintData) :
    (genStepIneq p s b).upperBound = s.upperBound := by
  unfold genStepIneq
  split
  · split <;> rfl
  · rfl

theorem genStepIneq_lowerBound (p : AggregationPolicy) (s b : ConstraintData) :
    (genStepIneq p s b).lowerBound = s.lowerBound := by
  unfold genStepIneq
  split
  · split <;> rfl
  · rfl

theorem genStepIneq_Aeq (p : AggregationPolicy) (s b : ConstraintData) :
    (genStepIneq p s b).Aeq = s.Aeq := by
  unfold genStepIneq
  split
  · split <;> rfl
  · rfl

theorem genStepIneq_beq (p : AggregationPolicy) (s b : ConstraintData) :
    (genStepIneq p s b).beq = s.beq := by
  unfold genStepIneq
  split
  · split <;> rfl
  · rfl

/-- The inequality pass only ever appends rows to `_Aineq`, `_bUpperBound`
and `_bLowerBound`. -/
theorem genStepIneq_appends (p : AggregationPolicy) (s b : ConstraintData) :
    ∃ t1 t2 t3,
      (genStepIneq p s b).Aineq = s.Aineq ++ t1 ∧
      (genStepIneq p s b).bUpperBound = s.bUpperBound ++ t2 ∧
      (genStepIneq p s b).bLowerBound = s.bLowerBound ++ t3 := by
  unfold genStepIneq
  split
  · split
    · exact ⟨_, _, _, rfl, rfl, rfl⟩
    · exact ⟨_, _, [], rfl, rfl, (List.append_nil _).symm⟩
  · exact ⟨[], [], [], (List.append_nil _).symm, (List.append_nil _).symm,
      (List.append_nil _).symm⟩

theorem genStep_upperBound (p : AggregationPolicy) (s b : ConstraintData) :
    (genStep p s b).upperBound = (genStepBox s b).upperBound := by
  unfold genStep
  rw [genStepIneq_upperBound, genStepEq_upperBound]

theorem genStep_lowerBound (p : AggregationPolicy) (s b : ConstraintData) :
    (genStep p s b).lowerBound = (genStepBox s b).lowerBound := by
  unfold genStep
  rw [genStepIneq_lowerBound, genStepEq_lowerBound]

theorem getD_zipWith (f : Scalar → Scalar → Scalar) (d : Scalar) :
    ∀ (u v : List Scalar) (i : Nat), i < u.length → i < v.length →
      (List.zipWith f u v).getD i d = f (u.getD i d) (v.getD i d) := by
  intro u
  induction u with
  | nil => intro v i hi; exact absurd hi (by simp)
  | cons a u ih =>
    intro v i hi hv
    cases v with
    | nil => exact absurd hv (by simp)
    | cons b v =>
      cases i with
      | zero => rfl
      | succ j =>
        simp only [List.zipWith_cons_cons, List.getD_cons_succ]
        exact ih v j (by simpa using hi) (by simpa using hv)

/-- Folding the child loop over children that all expose full-length box
bounds computes, per coordinate, the minimum of the running upper bound
with the children's upper bounds and the maximum of the running lower
bound with the children's lower bounds. -/
theorem box_fold_spec (p : AggregationPolicy) (x : Nat) (hx : 0 < x) :
    ∀ (cs : List ConstraintData) (s : ConstraintData),
      s.upperBound.length = x → s.lowerBound.length = x →
      (∀ c ∈ cs, c.upperBound.length = x ∧ c.lowerBound.length = x) →
      ∀ r, r = cs.foldl (genStep p) s →
      r.upperBound.length = x ∧ r.lowerBound.length = x ∧
      ∀ i, i < x →
        (r.upperBound.getD i (Scalar.fin 0) = s.upperBound.getD i (Scalar.fin 0) ∨
          ∃ c ∈ cs, r.upperBound.getD i (Scalar.fin 0) = c.upperBound.getD i (Scalar.fin 0)) ∧
        Sle (r.upperBound.getD i (Scalar.fin 0)) (s.upperBound.getD i (Scalar.fin 0)) = true ∧
        (∀ c ∈ cs, Sle (r.upperBound.getD i (Scalar.fin 0)) (c.upperBound.getD i (Scalar.fin 0)) = true) ∧
        (r.lowerBound.getD i (Scalar.fin 0) = s.lowerBound.getD i (Scalar.fin 0) ∨
          ∃ c ∈ cs, r.lowerBound.getD i (Scalar.fin 0) = c.lowerBound.getD i (Scalar.fin 0)) ∧
        Sle (s.lowerBound.getD i (Scalar.fin 0)) (r.lowerBound.getD i (Scalar.fin 0)) = true ∧
        (∀ c ∈ cs, Sle (c.lowerBound.getD i (Scalar.fin 0)) (r.lowerBound.getD i (Scalar.fin 0)) = true) := by
  intro cs
  induction cs with
  | nil =>
    intro s hsu hsl _ r hr
    subst hr
    exact ⟨hsu, hsl, fun i hi =>
      ⟨Or.inl rfl, Sle_refl _, by simp, Or.inl rfl, Sle_refl _, by simp⟩⟩
  | cons c rest ih =>
    intro s hsu hsl hcs r hr
    have hc := hcs c (List.mem_cons_self c rest)
    have hcu : c.upperBound.length ≠ 0 := by have := hc.1; omega
    have hsne : ¬(s.upperBound.length = 0 ∨ s.lowerBound.length = 0) := by
      intro h; rcases h with h | h <;> omega
    have hstep_u : (genStep p s c).upperBound =
        List.zipWith Smin s.upperBound c.upperBound := by
      rw [genStep_upperBound]
      unfold genStepBox
      rw [if_pos (Or.inl hcu), if_neg hsne]
    have hstep_l : (genStep p s c).lowerBound =
        List.zipWith Smax s.lowerBound c.lowerBound := by
      rw [genStep_lowerBound]
      unfold genStepBox
      rw [if_pos (Or.inl hcu), if_neg hsne]
    have hzu : (genStep p s c).upperBound.length = x := by
      rw [hstep_u, List.length_zipWith, hsu, hc.1]; omega
    have hzl : (genStep p s c).lowerBound.length = x := by
      rw [hstep_l, List.length_zipWith, hsl, hc.2]; omega
    subst hr
    simp only [List.foldl_cons]
    obtain ⟨hru, hrl, hspec⟩ :=
      ih (genStep p s c) hzu hzl
        (fun c' hc' => hcs c' (List.mem_cons_of_mem c hc')) _ rfl
    refine ⟨hru, hrl, fun i hi => ?_⟩
    obtain ⟨hv_u, hle_u, hall_u, hv_l, hle_l, hall_l⟩ := hspec i hi
    have hgu : (genStep p s c).upperBound.getD i (Scalar.fin 0) =
        Smin (s.upperBound.getD i (Scalar.fin 0)) (c.upperBound.getD i (Scalar.fin 0)) := by
      rw [hstep_u]
      exact getD_zipWith Smin _ s.upperBound c.upperBound i
        (by rw [hsu]; exact hi) (by rw [hc.1]; exact hi)
    have hgl : (genStep p s c).lowerBound.getD i (Scalar.fin 0) =
        Smax (s.lowerBound.getD i (Scalar.fin 0)) (c.lowerBound.getD i (Scalar.fin 0)) := by
      rw [hstep_l]
      exact getD_zipWith Smax _ s.lowerBound c.lowerBound i
        (by rw [hsl]; exact hi) (by rw [hc.2]; exact hi)
    have hsu' : Sle ((genStep p s c).upperBound.getD i (Scalar.fin 0))
        (s.upperBound.getD i (Scalar.fin 0)) = true := by
      rw [hgu]; exact Sle_min_left _ _
    have hcu' : Sle ((genStep p s c).upperBound.getD i (Scalar.fin 0))
        (c.upperBound.getD i (Scalar.fin 0)) = true := by
      rw [hgu]; exact Sle_min_right _ _
    have hsl' : Sle (s.lowerBound.getD i (Scalar.fin 0))
        ((genStep p s c).lowerBound.getD i (Scalar.fin 0)) = true := by
      rw [hgl]; exact Sle_max_left _ _
    have hcl' : Sle (c.lowerBound.getD i (Scalar.fin 0))
        ((genStep p s c).lowerBound.getD i (Scalar.fin 0)) = true := by
      rw [hgl]; exact Sle_max_right _ _
    refine ⟨?_, Sle_trans hle_u hsu', ?_, ?_, Sle_trans hsl' hle_l, ?_⟩
    · rcases hv_u with h | ⟨c', hc', h⟩
      · rw [h, hgu]
        rcases Smin_eq_or (s.upperBound.getD i (Scalar.fin 0))
            (c.upperBound.getD i (Scalar.fin 0)) with h2 | h2
        · exact Or.inl h2
        · exact Or.inr ⟨c, List.mem_cons_self c rest, h2⟩
      · exact Or.inr ⟨c', List.mem_cons_of_mem c hc', h⟩
    · intro c' hc'
      rcases List.mem_cons.mp hc' with rfl | hmem
      · exact Sle_trans hle_u hcu'
      · exact hall_u c' hmem
    · rcases hv_l with h | ⟨c', hc', h⟩
      · rw [h, hgl]
        rcases Smax_eq_or (s.lowerBound.getD i (Scalar.fin 0))
            (c.lowerBound.getD i (Scalar.fin 0)) with h2 | h2
        · exact Or.inl h2
        · exact Or.inr ⟨c, List.mem_cons_self c rest, h2⟩
      · exact Or.inr ⟨c', List.mem_cons_of_mem c hc', h⟩
    · intro c' hc'
      rcases List.mem_cons.mp hc' with rfl | hmem
      · exact Sle_trans hcl' hle_l
      · exact hall_l c' hmem

/-- Claim C1: for an `AggregatedConstraint` whose children all expose box
bounds of length `x_size`, after `generateAll()` the merged bounds are the
elementwise intersection of the children's boxes: at every coordinate the
merged upper bound is the minimum of the children's upper bounds (it is
attained by some child and below every child), and the merged lower bound
is the maximum of the children's lower bounds. -/
theorem generateAll_box_intersection
    (p : AggregationPolicy) (xSize : Nat) (cs : List ConstraintData)
    (prev : ConstraintData) (hx : 0 < xSize) (hne : cs ≠ [])
    (hlen : ∀ c ∈ cs, c.upperBound.length = xSize ∧ c.lowerBound.length = xSize) :
    (generateAll p cs prev).upperBound.length = xSize ∧
    (generateAll p cs prev).lowerBound.length = xSize ∧
    ∀ i, i < xSize →
      (∃ c ∈ cs, (generateAll p cs prev).upperBound.getD i (Scalar.fin 0) =
        c.upperBound.getD i (Scalar.fin 0)) ∧
      (∀ c ∈ cs, Sle ((generateAll p cs prev).upperBound.getD i (Scalar.fin 0))
        (c.upperBound.getD i (Scalar.fin 0)) = true) ∧
      (∃ c ∈ cs, (generateAll p cs prev).lowerBound.getD i (Scalar.fin 0) =
        c.lowerBound.getD i (Scalar.fin 0)) ∧
      (∀ c ∈ cs, Sle (c.lowerBound.getD i (Scalar.fin 0))
        ((generateAll p cs prev).lowerBound.getD i (Scalar.fin 0)) = true) := by
  cases cs with
  | nil => exact absurd rfl hne
  | cons c0 rest =>
    have hc0 := hlen c0 (List.mem_cons_self c0 rest)
    have hc0u : c0.upperBound.length ≠ 0 := by have := hc0.1; omega
    have hadopt_u : (genStep p (resetState prev) c0).upperBound = c0.upperBound := by
      rw [genStep_upperBound]
      unfold genStepBox resetState
      rw [if_pos (Or.inl hc0u)]
      simp
    have hadopt_l : (genStep p (resetState prev) c0).lowerBound = c0.lowerBound := by
      rw [genStep_lowerBound]
      unfold genStepBox resetState
      rw [if_pos (Or.inl hc0u)]
      simp
    have hfold : generateAll p (c0 :: rest) prev =
        rest.foldl (genStep p) (genStep p (resetState prev) c0) := by
      unfold generateAll
      simp only [List.foldl_cons]
    obtain ⟨hru, hrl, hspec⟩ :=
      box_fold_spec p xSize hx rest (genStep p (resetState prev) c0)
        (by rw [hadopt_u]; exact hc0.1) (by rw [hadopt_l]; exact hc0.2)
        (fun c hc => hlen c (List.mem_cons_of_mem c0 hc))
        (generateAll p (c0 :: rest) prev) hfold
    refine ⟨hru, hrl, fun i hi => ?_⟩
    obtain ⟨hv_u, hle_u, hall_u, hv_l, hle_l, hall_l⟩ := hspec i hi
    refine ⟨?_, ?_, ?_, ?_⟩
    · rcases hv_u with h | ⟨c', hc', h⟩
      · exact ⟨c0, List.mem_cons_self c0 rest, by rw [h, hadopt_u]⟩
      · exact ⟨c', List.mem_cons_of_mem c0 hc', h⟩
    · intro c' hc'
      rcases List.mem_cons.mp hc' with rfl | hmem
      · have := hle_u
        rw [hadopt_u] at this
        exact this
      · exact hall_u c' hmem
    · rcases hv_l with h | ⟨c', hc', h⟩
      · exact ⟨c0, List.mem_cons_self c0 rest, by rw [h, hadopt_l]⟩
      · exact ⟨c', List.mem_cons_of_mem c0 hc', h⟩
    · intro c' hc'
      rcases List.mem_cons.mp hc' with rfl | hmem
      · have := hle_l
        rw [hadopt_l] at this
        exact this
      · exact hall_l c' hmem

/-- Witness for C1 at two concrete children over `x_size = 2`. -/
theorem generateAll_box_intersection_witness :
    (0 < 2) ∧ (([boxChildA, boxChildB] : List ConstraintData) ≠ []) ∧
    (∀ c ∈ [boxChildA, boxChildB],
      c.upperBound.length = 2 ∧ c.lowerBound.length = 2) ∧
    ((generateAll ⟨false, false⟩ [boxChildA, boxChildB] emptyData).upperBound.length = 2 ∧
     (generateAll ⟨false, false⟩ [boxChildA, boxChildB] emptyData).lowerBound.length = 2 ∧
     ∀ i, i < 2 →
       (∃ c ∈ [boxChildA, boxChildB],
         (generateAll ⟨false, false⟩ [boxChildA, boxChildB] emptyData).upperBound.getD i
           (Scalar.fin 0) = c.upperBound.getD i (Scalar.fin 0)) ∧
       (∀ c ∈ [boxChildA, boxChildB],
         Sle ((generateAll ⟨false, false⟩ [boxChildA, boxChildB] emptyData).upperBound.getD i
           (Scalar.fin 0)) (c.upperBound.getD i (Scalar.fin 0)) = true) ∧
       (∃ c ∈ [boxChildA, boxChildB],
         (generateAll ⟨false, false⟩ [boxChildA, boxChildB] emptyData).lowerBound.getD i
           (Scalar.fin 0) = c.lowerBound.getD i (Scalar.fin 0)) ∧
       (∀ c ∈ [boxChildA, boxChildB],
         Sle (c.lowerBound.getD i (Scalar.fin 0))
           ((generateAll ⟨false, false⟩ [boxChildA, boxChildB] emptyData).lowerBound.getD i
             (Scalar.fin 0)) = true)) :=
  ⟨by decide, by decide, by decide,
   generateAll_box_intersection ⟨false, false⟩ 2 [boxChildA, boxChildB] emptyData
     (by decide) (by decide) (by decide)⟩

/-- Claim C5: with both `EQUALITIES_TO_INEQUALITIES` and
`UNILATERAL_TO_BILATERAL` set, a child's equality block `(Aeq, beq)` is
folded into the aggregate's inequality block as rows carrying `Aeq` with
`bLowerBound = bUpperBound = beq` at the matching row offset, and the
child contributes nothing to the aggregate's equality block. -/
theorem genStep_equality_bilateral
    (s b : ConstraintData)
    (hb : b.Aeq.length ≠ 0 ∨ b.beq.length ≠ 0)
    (halign : s.Aineq.length = s.bUpperBound.length ∧
      s.Aineq.length = s.bLowerBound.length) :
    (genStep ⟨true, true⟩ s b).Aeq = s.Aeq ∧
    (genStep ⟨true, true⟩ s b).beq = s.beq ∧
    (genStep ⟨true, true⟩ s b).Aineq.take s.Aineq.length = s.Aineq ∧
    ((genStep ⟨true, true⟩ s b).Aineq.drop s.Aineq.length).take b.Aeq.length =
      b.Aeq ∧
    ((genStep ⟨true, true⟩ s b).bUpperBound.drop s.Aineq.length).take b.beq.length =
      b.beq ∧
    ((genStep ⟨true, true⟩ s b).bLowerBound.drop s.Aineq.length).take b.beq.length =
      b.beq := by
  obtain ⟨t1, t2, t3, ha, hu, hl⟩ :=
    genStepIneq_appends ⟨true, true⟩ (genStepEq ⟨true, true⟩ (genStepBox s b) b) b
  have h2 : genStepEq ⟨true, true⟩ (genStepBox s b) b =
      { genStepBox s b with
        Aineq := pile (genStepBox s b).Aineq b.Aeq,
        bUpperBound := pile (genStepBox s b).bUpperBound b.beq,
        bLowerBound := pile (genStepBox s b).bLowerBound b.beq } := by
    unfold genStepEq
    rw [if_pos hb]
    rfl
  have hgs : genStep ⟨true, true⟩ s b =
      genStepIneq ⟨true, true⟩ (genStepEq ⟨true, true⟩ (genStepBox s b) b) b := rfl
  refine ⟨?_, ?_, ?_, ?_, ?_, ?_⟩
  · rw [hgs, genStepIneq_Aeq, h2]
    exact genStepBox_Aeq s b
  · rw [hgs, genStepIneq_beq, h2]
    exact genStepBox_beq s b
  · rw [hgs, ha, h2]
    simp only [pile, genStepBox_Aineq, List.append_assoc]
    exact List.take_left _ _
  · rw [hgs, ha, h2]
    simp only [pile, genStepBox_Aineq, List.append_assoc]
    rw [List.drop_left]
    exact List.take_left _ _
  · rw [hgs, hu, h2]
    simp only [pile, genStepBox_bUpperBound, List.append_assoc]
    rw [halign.1, List.drop_left]
    exact List.take_left _ _
  · rw [hgs, hl, h2]
    simp only [pile, genStepBox_bLowerBound, List.append_assoc]
    rw [halign.2, List.drop_left]
    exact List.take_left _ _

/-- Witness for C5: the equality child `x + 2 y = 7` folded into an empty
aggregate state in bilateral mode. -/
theorem genStep_equality_bilateral_witness :
    ((eqChildA.Aeq.length ≠ 0 ∨ eqChildA.beq.length ≠ 0) ∧
     (emptyData.Aineq.length = emptyData.bUpperBound.length ∧
      emptyData.Aineq.length = emptyData.bLowerBound.length)) ∧
    ((genStep ⟨true, true⟩ emptyData eqChildA).Aeq = emptyData.Aeq ∧
     (genStep ⟨true, true⟩ emptyData eqChildA).beq = emptyData.beq ∧
     (genStep ⟨true, true⟩ emptyData eqChildA).Aineq.take emptyData.Aineq.length =
       emptyData.Aineq ∧
     ((genStep ⟨true, true⟩ emptyData eqChildA).Aineq.drop
       emptyData.Aineq.length).take eqChildA.Aeq.length = eqChildA.Aeq ∧
     ((genStep ⟨true, true⟩ emptyData eqChildA).bUpperBound.drop
       emptyData.Aineq.length).take eqChildA.beq.length = eqChildA.beq ∧
     ((genStep ⟨true, true⟩ emptyData eqChildA).bLowerBound.drop
       emptyData.Aineq.length).take eqChildA.beq.length = eqChildA.beq) :=
  ⟨⟨by decide, by decide⟩,
   genStep_equality_bilateral emptyData eqChildA (by decide) (by decide)⟩

/-- Claim C6: with `EQUALITIES_TO_INEQUALITIES` set and
`UNILATERAL_TO_BILATERAL` unset, a child's equality block `(Aeq, beq)` is
folded into the aggregate's inequality block as the two stacked row
blocks `Aeq` and `-Aeq`, with `beq` and `-beq` stacked into
`bUpperBound`, and the child contributes nothing to the aggregate's
equality block. -/
theorem genStep_equality_unilateral
    (s b : ConstraintData)
    (hb : b.Aeq.length ≠ 0 ∨ b.beq.length ≠ 0)
    (halign : s.Aineq.length = s.bUpperBound.length) :
    (genStep ⟨true, false⟩ s b).Aeq = s.Aeq ∧
    (genStep ⟨true, false⟩ s b).beq = s.beq ∧
    (genStep ⟨true, false⟩ s b).Aineq.take s.Aineq.length = s.Aineq ∧
    ((genStep ⟨true, false⟩ s b).Aineq.drop s.Aineq.length).take
      (b.Aeq ++ negM b.Aeq).length = b.Aeq ++ negM b.Aeq ∧
    ((genStep ⟨true, false⟩ s b).bUpperBound.drop s.Aineq.length).take
      (b.beq ++ negV b.beq).length = b.beq ++ negV b.beq := by
  obtain ⟨t1, t2, t3, ha, hu, hl⟩ :=
    genStepIneq_appends ⟨true, false⟩ (genStepEq ⟨true, false⟩ (genStepBox s b) b) b
  have h2 : genStepEq ⟨true, false⟩ (genStepBox s b) b =
      { genStepBox s b with
        Aineq := pile (pile (genStepBox s b).Aineq b.Aeq) (negM b.Aeq),
        bUpperBound := pile (pile (genStepBox s b).bUpperBound b.beq) (negV b.beq) } := by
    unfold genStepEq
    rw [if_pos hb]
    rfl
  have hgs : genStep ⟨true, false⟩ s b =
      genStepIneq ⟨true, false⟩ (genStepEq ⟨true, false⟩ (genStepBox s b) b) b := rfl
  refine ⟨?_, ?_, ?_, ?_, ?_⟩
  · rw [hgs, genStepIneq_Aeq, h2]
    exact genStepBox_Aeq s b
  · rw [hgs, genStepIneq_beq, h2]
    exact genStepBox_beq s b
  · rw [hgs, ha, h2]
    simp only [pile, genStepBox_Aineq, List.append_assoc]
    exact List.take_left _ _
  · rw [hgs, ha, h2]
    simp only [pile, genStepBox_Aineq, List.append_assoc]
    rw [List.drop_left, ← List.append_assoc]
    exact List.take_left _ _
  · rw [hgs, hu, h2]
    simp only [pile, genStepBox_bUpperBound, List.append_assoc]
    rw [halign, List.drop_left, ← List.append_assoc]
    exact List.take_left _ _

/-- Witness for C6: the equality child `3 x - y = 4` folded into an empty
aggregate state in pure-unilateral mode. -/
theorem genStep_equality_unilateral_witness :
    ((eqChildB.Aeq.length ≠ 0 ∨ eqChildB.beq.length ≠ 0) ∧
     emptyData.Aineq.length = emptyData.bUpperBound.length) ∧
    ((genStep ⟨true, false⟩ emptyData eqChildB).Aeq = emptyData.Aeq ∧
     (genStep ⟨true, false⟩ emptyData eqChildB).beq = emptyData.beq ∧
     (genStep ⟨true, false⟩ emptyData eqChildB).Aineq.take emptyData.Aineq.length =
       emptyData.Aineq ∧
     ((genStep ⟨true, false⟩ emptyData eqChildB).Aineq.drop
       emptyData.Aineq.length).take (eqChildB.Aeq ++ negM eqChildB.Aeq).length =
       eqChildB.Aeq ++ negM eqChildB.Aeq ∧
     ((genStep ⟨true, false⟩ emptyData eqChildB).bUpperBound.drop
       emptyData.Aineq.length).take (eqChildB.beq ++ negV eqChildB.beq).length =
       eqChildB.beq ++ negV eqChildB.beq) :=
  ⟨⟨by decide, by decide⟩,
   genStep_equality_unilateral emptyData eqChildB (by decide) (by decide)⟩

/-- Claim C2 (refuting evaluation at the failing input): in pure-unilateral
mode, a child exposing only the lower-bounded inequality `3 ≤ 2 x` ends up
in the aggregate with the sign-flipped row `-2` in `Aineq`, but the negated
bound `-3` is NOT stacked into `bUpperBound`: `bUpperBound` stays empty
(the source negates `boundbLowerBound` and then piles the still-empty
`boundbUpperBound`, dropping the bound). -/
theorem generateAll_lower_only_drops_bound :
    (generateAll ⟨false, false⟩ [lowerOnlyChild] emptyData).Aineq =
      [[Scalar.fin (-2)]] ∧
    (generateAll ⟨false, false⟩ [lowerOnlyChild] emptyData).bUpperBound = [] ∧
    (generateAll ⟨false, false⟩ [lowerOnlyChild] emptyData).bLowerBound = [] := by
  decide

/-- Claim C3 (refuting evaluation at the failing input): after
`generateAll()` on a pure-unilateral aggregate whose only child exposes the
lower-bounded inequality `5 ≤ 4 x`, the merged inequality matrix has one
row while `bUpperBound` is empty, violating the claimed row-count
equality (the condition the source itself asserts on line 216). -/
theorem generateAll_rowcount_mismatch :
    (generateAll ⟨false, false⟩ [lowerOnlyChildB] emptyData).Aineq.length = 1 ∧
    (generateAll ⟨false, false⟩ [lowerOnlyChildB] emptyData).bUpperBound.length = 0 := by
  decide

end Constraints

namespace Tasks

/-- Unfolding of the task-side child loop: folding `generateStep` appends
the weighted blocks of every task, in order, to the initial state and
leaves `W`, `lambda` and `hessianType` untouched. -/
theorem foldl_generateStep_spec {γ : Type} (ts : List (TaskData γ)) :
    ∀ init : AggTaskState γ,
      ts.foldl generateStep init =
        { A := init.A ++ (ts.map (fun t => matMul t.W t.A)).flatten,
          b := init.b ++ (ts.map (fun t => matVec (smulM t.lambda t.W) t.b)).flatten,
          W := init.W, lambda := init.lambda, hessianType := init.hessianType,
          constraints := init.constraints ++ (ts.map (fun t => t.constraints)).flatten } := by
  induction ts with
  | nil => intro init; simp
  | cons t ts ih =>
    intro init
    simp only [List.foldl_cons, ih, List.map_cons, List.flatten_cons, generateStep, pile]
    simp [List.append_assoc]

end Tasks

/-- Claim C4: `tasks::Aggregated::generateAll` clears the merged objective
and constraint list and then, for each child task in list order, appends
`weight * A` as a row block of the merged `A`, `weight * lambda * b` as
the matching segment of the merged `b`, and the child's constraints to the
merged list; in particular aggregating T1 with `W1 = 2I, lambda1 = 1` and
T2 with `W2 = I, lambda2 = 1/2` yields `A = [2*A1; A2]` and
`b = [2*b1; 0.5*b2]`. -/
theorem tasks_generateAll_weighted_stack :
    (∀ (γ : Type) (ts : List (Tasks.TaskData γ)) (s : Tasks.AggTaskState γ),
      (Tasks.generateAll ts s).A =
        (ts.map (fun t => Tasks.matMul t.W t.A)).flatten ∧
      (Tasks.generateAll ts s).b =
        (ts.map (fun t => Tasks.matVec (Tasks.smulM t.lambda t.W) t.b)).flatten ∧
      (Tasks.generateAll ts s).constraints =
        (ts.map (fun t => t.constraints)).flatten) ∧
    ((Tasks.generateAll [taskT1, taskT2] taskBase).A =
      [[2, 4], [6, 8], [7, 8]] ∧
     (Tasks.generateAll [taskT1, taskT2] taskBase).b = [10, 12, 9/2]) := by
  constructor
  · intro v ts s
    unfold Tasks.generateAll
    rw [Tasks.foldl_generateStep_spec]
    exact ⟨rfl, rfl, rfl⟩
  · constructor
    · norm_num [Tasks.generateAll, Tasks.generateStep, taskT1, taskT2, taskBase,
        Tasks.matMul, Tasks.matVec, Tasks.smulM, Tasks.dot, Tasks.col, pile,
        List.range_succ]
    · norm_num [Tasks.generateAll, Tasks.generateStep, taskT1, taskT2, taskBase,
        Tasks.matMul, Tasks.matVec, Tasks.smulM, Tasks.dot, Tasks.col, pile,
        List.range_succ]

/-- Claim C7: with no mutation of any child between the calls, running
`generateAll()` twice in a row yields exactly the same merged state as
running it once, for both the constraint aggregate and the task
aggregate — the merge is recomputed from scratch from the children and
carries no state across calls. -/
theorem generateAll_idempotent {γ : Type} (p : Constraints.AggregationPolicy)
    (cs : List Constraints.ConstraintData) (s : Constraints.ConstraintData)
    (ts : List (Tasks.TaskData γ)) (st : Tasks.AggTaskState γ) :
    Constraints.generateAll p cs (Constraints.generateAll p cs s) =
      Constraints.generateAll p cs s ∧
    Tasks.generateAll ts (Tasks.generateAll ts st) = Tasks.generateAll ts st := by
  constructor
  · rfl
  · simp [Tasks.generateAll, Tasks.foldl_generateStep_spec]

/-- Claim C8: constructing an aggregated constraint or aggregated task
from children among which some child reports an `x_size` different from
the aggregate's fails (fatally, modelled as `none`) during construction,
via the `checkSizes()` scan over every child, before any merge output is
produced. -/
theorem checkSizes_mismatch_fails {γ : Type}
    (bounds : List Constraints.Child) (xSize : Nat)
    (p : Constraints.AggregationPolicy)
    (tasks : List (Tasks.TaskData γ)) (base : Tasks.AggTaskState γ)
    (hb : ∃ c ∈ bounds, c.xsize ≠ xSize) (ht : ∃ t ∈ tasks, t.xsize ≠ xSize) :
    Constraints.mkAggregated bounds xSize p = none ∧
    Tasks.mkAggregated base tasks xSize = none := by
  constructor
  · have hchk : ¬ (Constraints.checkSizes xSize bounds = true) := by
      intro hall
      obtain ⟨c, hc, hne⟩ := hb
      exact hne (by simpa using (List.all_eq_true.mp hall c hc))
    unfold Constraints.mkAggregated
    rw [if_neg hchk]
  · have hchk : ¬ (Tasks.checkSizes xSize tasks = true) := by
      intro hall
      obtain ⟨t, hc, hne⟩ := ht
      exact hne (by simpa using (List.all_eq_true.mp hall t hc))
    unfold Tasks.mkAggregated
    rw [if_neg hchk]

/-- Witness for C8: a single child reporting `x_size = 7` under an
aggregate with `x_size = 6`, on both the constraint and the task side. -/
theorem checkSizes_mismatch_fails_witness :
    (∃ c ∈ [(⟨7, Constraints.emptyData⟩ : Constraints.Child)], c.xsize ≠ 6) ∧
    (∃ t ∈ [taskSize7], t.xsize ≠ 6) ∧
    (Constraints.mkAggregated [⟨7, Constraints.emptyData⟩] 6 ⟨false, false⟩ = none ∧
     Tasks.mkAggregated taskBase [taskSize7] 6 = none) :=
  ⟨by decide, by decide,
   checkSizes_mismatch_fails [⟨7, Constraints.emptyData⟩] 6 ⟨false, false⟩
     [taskSize7] taskBase (by decide) (by decide)⟩

/-- Claim C10: `update(x)` and `generateAll()` on an aggregated task only
rebuild the merged `A`, `b` and constraint list; the weight `W`, the
`lambda` gain and the `hessianType` tag are never changed by them, for any
child update whatsoever; `W` is set to the identity sized to the merged
row count and `hessianType` to semi-definite only by the constructor,
after the initial merge. -/
theorem tasks_frame_preserved :
    (∀ (γ : Type) (upd : Tasks.TaskData γ → Tasks.TaskData γ)
       (ts : List (Tasks.TaskData γ)) (s : Tasks.AggTaskState γ),
      ((Tasks.update upd ts s).2.W = s.W ∧
       (Tasks.update upd ts s).2.lambda = s.lambda ∧
       (Tasks.update upd ts s).2.hessianType = s.hessianType) ∧
      ((Tasks.generateAll ts s).W = s.W ∧
       (Tasks.generateAll ts s).lambda = s.lambda ∧
       (Tasks.generateAll ts s).hessianType = s.hessianType)) ∧
    (∀ (γ : Type) (base s : Tasks.AggTaskState γ)
       (ts : List (Tasks.TaskData γ)) (x : Nat),
      Tasks.mkAggregated base ts x = some s →
      s.W = Tasks.eye s.A.length ∧
      s.hessianType = Tasks.HessianType.HST_SEMIDEF) := by
  constructor
  · intro v upd ts s
    have hg : ∀ ts' : List (Tasks.TaskData v),
        (Tasks.generateAll ts' s).W = s.W ∧
        (Tasks.generateAll ts' s).lambda = s.lambda ∧
        (Tasks.generateAll ts' s).hessianType = s.hessianType := by
      intro ts'
      unfold Tasks.generateAll
      rw [Tasks.foldl_generateStep_spec]
      exact ⟨rfl, rfl, rfl⟩
    exact ⟨hg (ts.map upd), hg ts⟩
  · intro v base s ts x h
    unfold Tasks.mkAggregated at h
    by_cases hc : Tasks.checkSizes x ts = true
    · rw [if_pos hc] at h
      injection h with h2
      rw [← h2]
      exact ⟨rfl, rfl⟩
    · rw [if_neg hc] at h
      exact absurd h (by simp)

/-- Witness for C10: constructing from the empty task list over
`x_size = 0` yields the state with `W = eye 0` and the semi-definite tag. -/
theorem tasks_frame_preserved_witness :
    Tasks.mkAggregated taskBase ([] : List (Tasks.TaskData Nat)) 0 =
      some taskAggResult ∧
    (taskAggResult.W = Tasks.eye taskAggResult.A.length ∧
     taskAggResult.hessianType = Tasks.HessianType.HST_SEMIDEF) :=
  ⟨rfl, tasks_frame_preserved.2 Nat taskBase taskAggResult [] 0 rfl⟩

/-- A name absent from the pair list is absent from the built layout
entries, at any offset. -/
theorem layoutEntries_lookup_none (name : String) :
    ∀ (pairs : List (String × Nat)) (off : Nat),
      name ∉ pairs.map Prod.fst →
      (layoutEntries off pairs).lookup name = none := by
  intro pairs
  induction pairs with
  | nil => intro off _; rfl
  | cons p rest ih =>
    intro off hmem
    obtain ⟨n, sz⟩ := p
    simp only [List.map_cons, List.mem_cons] at hmem
    push_neg at hmem
    have hne : (name == n) = false := beq_eq_false_iff_ne.mpr hmem.1
    simp only [layoutEntries, List.lookup, hne]
    exact ih (off + sz) hmem.2

/-- Success of the constructor loop determines the final total size and
the final map: the entries of the processed pairs, laid out from the
starting offset, appended to the starting map. -/
theorem mkAux_ok_shape :
    ∀ (pairs : List (String × Nat)) (h0 h : OptvarHelper),
      mkOptvarHelperAux h0 pairs = Except.ok h →
      h.size = h0.size + sumSizes pairs ∧
      h.vars_map = h0.vars_map ++ layoutEntries h0.size pairs := by
  intro pairs
  induction pairs with
  | nil =>
    intro h0 h hok
    simp only [mkOptvarHelperAux, Except.ok.injEq] at hok
    subst hok
    simp [sumSizes, layoutEntries]
  | cons p rest ih =>
    intro h0 h hok
    obtain ⟨n, sz⟩ := p
    simp only [mkOptvarHelperAux] at hok
    by_cases hc : (h0.vars_map.lookup n).isSome = true
    · rw [if_pos hc] at hok
      exact absurd hok (by simp)
    · rw [if_neg hc] at hok
      obtain ⟨hsize, hmap⟩ := ih _ h hok
      constructor
      · simp only [hsize, sumSizes, List.map_cons, List.sum_cons]
        simp [sumSizes] at *
        omega
      · rw [hmap]
        simp only [layoutEntries, List.append_assoc, List.singleton_append]

/-- Success of the constructor loop binds the `k`-th processed name to its
size and to the starting offset plus the sizes of the pairs before it. -/
theorem mkAux_lookup :
    ∀ (pairs : List (String × Nat)) (h0 h : OptvarHelper),
      mkOptvarHelperAux h0 pairs = Except.ok h →
      ∀ (k : Nat) (hk : k < pairs.length),
        h.vars_map.lookup (pairs.get ⟨k, hk⟩).1 =
          some ⟨(pairs.get ⟨k, hk⟩).2, h0.size + sumSizes (pairs.take k)⟩ := by
  intro pairs
  induction pairs with
  | nil => intro h0 h _ k hk; exact absurd hk (by simp)
  | cons p rest ih =>
    intro h0 h hok k hk
    obtain ⟨n, sz⟩ := p
    simp only [mkOptvarHelperAux] at hok
    by_cases hc : (h0.vars_map.lookup n).isSome = true
    · rw [if_pos hc] at hok
      exact absurd hok (by simp)
    · rw [if_neg hc] at hok
      cases k with
      | zero =>
        obtain ⟨_, hmap⟩ := mkAux_ok_shape rest _ h hok
        have h0none : h0.vars_map.lookup n = none :=
          Option.not_isSome_iff_eq_none.mp hc
        show List.lookup n h.vars_map = some ⟨sz, h0.size⟩
        rw [hmap]
        dsimp only
        rw [List.lookup_append, List.lookup_append, h0none]
        simp [List.lookup]
      | succ j =>
        have := ih _ h hok j (by simpa using Nat.lt_of_succ_lt_succ hk)
        simp only [List.get_cons_succ] at this ⊢
        rw [this]
        simp [sumSizes, Nat.add_assoc]

/-- The constructor loop either succeeds or raises the duplicate-name
error: no other outcome exists. -/
theorem mkAux_or_error :
    ∀ (pairs : List (String × Nat)) (h0 : OptvarHelper),
      (∃ h, mkOptvarHelperAux h0 pairs = Except.ok h) ∨
      mkOptvarHelperAux h0 pairs =
        Except.error "Duplicate variable names are not allowed" := by
  intro pairs
  induction pairs with
  | nil => intro h0; exact Or.inl ⟨h0, rfl⟩
  | cons p rest ih =>
    intro h0
    simp only [mkOptvarHelperAux]
    by_cases hc : (h0.vars_map.lookup p.1).isSome = true
    · rw [if_pos hc]
      exact Or.inr rfl
    · rw [if_neg hc]
      exact ih _

/-- The constructor loop over a concatenation runs the first half, then
feeds its state into the second half (errors short-circuit). -/
theorem mkAux_append :
    ∀ (xs ys : List (String × Nat)) (h0 : OptvarHelper),
      mkOptvarHelperAux h0 (xs ++ ys) =
        (mkOptvarHelperAux h0 xs).bind (fun h1 => mkOptvarHelperAux h1 ys) := by
  intro xs
  induction xs with
  | nil => intro ys h0; rfl
  | cons x xs ih =>
    intro ys h0
    simp only [List.cons_append, mkOptvarHelperAux]
    by_cases hc : (h0.vars_map.lookup x.1).isSome = true
    · rw [if_pos hc, if_pos hc]
      rfl
    · rw [if_neg hc, if_neg hc]
      exact ih ys _

/-- Claim C9: constructing a variable layout from `(name, size)` pairs in
which some name occurs twice fails with the naming-conflict error;
`getVar` on a name that was never registered fails with the lookup error;
and `getVar` on the `k`-th registered name returns `(M, q)` with `q` the
zero vector and `M` the identity block of the segment's size placed at
the segment's offset — the sum of the sizes registered before it — in a
matrix whose width is the total size. -/
theorem optvarHelper_layout :
    (∀ (l₁ l₂ l₃ : List (String × Nat)) (n : String) (s₁ s₂ : Nat),
      mkOptvarHelper (l₁ ++ (n, s₁) :: l₂ ++ (n, s₂) :: l₃) =
        Except.error "Duplicate variable names are not allowed") ∧
    (∀ (pairs : List (String × Nat)) (h : OptvarHelper) (name : String),
      mkOptvarHelper pairs = Except.ok h → name ∉ pairs.map Prod.fst →
      getVar h name = Except.error "Variable does not exist") ∧
    (∀ (pairs : List (String × Nat)) (h : OptvarHelper) (k : Nat)
       (hk : k < pairs.length),
      mkOptvarHelper pairs = Except.ok h →
      getVar h (pairs.get ⟨k, hk⟩).1 =
        Except.ok (selectionMatrix (sumSizes (pairs.take k))
            (pairs.get ⟨k, hk⟩).2 (sumSizes pairs),
          List.replicate (pairs.get ⟨k, hk⟩).2 0)) := by
  refine ⟨?_, ?_, ?_⟩
  · intro l₁ l₂ l₃ n s₁ s₂
    unfold mkOptvarHelper
    rw [mkAux_append, mkAux_append]
    rcases mkAux_or_error l₁ ⟨0, [], []⟩ with ⟨h1, hok1⟩ | herr1
    · rw [hok1]
      simp only [Except.bind]
      simp only [mkOptvarHelperAux]
      by_cases hc1 : (h1.vars_map.lookup n).isSome = true
      · rw [if_pos hc1]
      · rw [if_neg hc1]
        rcases mkAux_or_error l₂
            ⟨h1.size + s₁, h1.vars ++ [⟨s₁, h1.size⟩],
             h1.vars_map ++ [(n, ⟨s₁, h1.size⟩)]⟩ with ⟨h3, hok3⟩ | herr3
        · obtain ⟨_, hmap3⟩ := mkAux_ok_shape l₂ _ h3 hok3
          have hsome : (h3.vars_map.lookup n).isSome = true := by
            rw [hmap3]
            dsimp only
            rw [List.lookup_append, List.lookup_append,
              Option.not_isSome_iff_eq_none.mp hc1]
            simp [List.lookup]
          simp only [hok3]
          rw [if_pos hsome]
        · simp only [herr3]
    · rw [herr1]
      rfl
  · intro pairs h name hok hmem
    obtain ⟨_, hmap⟩ := mkAux_ok_shape pairs ⟨0, [], []⟩ h hok
    unfold getVar
    rw [hmap]
    dsimp only
    rw [List.nil_append, layoutEntries_lookup_none name pairs 0 hmem]
  · intro pairs h k hk hok
    obtain ⟨hsize, _⟩ := mkAux_ok_shape pairs ⟨0, [], []⟩ h hok
    have hlk := mkAux_lookup pairs ⟨0, [], []⟩ h hok k hk
    unfold getVar
    rw [hlk]
    dsimp only
    rw [hsize]
    simp

/-- Witness for C9: the layout `[("q",2),("r",3)]`, the duplicate list
`[("q",7),("q",3)]`, the unregistered name `z` and the registered name
`r` (second entry, offset 2, total size 5). -/
theorem optvarHelper_layout_witness :
    mkOptvarHelper layoutPairs = Except.ok layoutHelper ∧
    ("z" ∉ layoutPairs.map Prod.fst) ∧ (1 < layoutPairs.length) ∧
    mkOptvarHelper (([] : List (String × Nat)) ++ ("q", 7) :: [] ++ ("q", 3) :: []) =
      Except.error "Duplicate variable names are not allowed" ∧
    getVar layoutHelper "z" = Except.error "Variable does not exist" ∧
    getVar layoutHelper (layoutPairs.get ⟨1, by decide⟩).1 =
      Except.ok (selectionMatrix (sumSizes (layoutPairs.take 1))
          (layoutPairs.get ⟨1, by decide⟩).2 (sumSizes layoutPairs),
        List.replicate (layoutPairs.get ⟨1, by decide⟩).2 0) :=
  ⟨rfl, by decide, by decide,
   optvarHelper_layout.1 [] [] [] "q" 7 3,
   optvarHelper_layout.2.1 layoutPairs layoutHelper "z" rfl (by decide),
   optvarHelper_layout.2.2 layoutPairs layoutHelper 1 (by decide) rfl⟩

end OpenSoT
